import Mathlib

/-!
Verification development for the LiCunXu knowledge-graph construction engine.

The graph store (Neo4j) is modelled as explicit lists of typed nodes and
edges; a query that returns `LIMIT 1` is modelled as the first match in
store (insertion) order, and `MERGE` on a key is modelled as
update-if-present / append-if-absent.  Python truthiness on optional
values (`if x:`) is modelled explicitly: an optional integer is truthy
when it is present and nonzero, an optional string when it is present and
nonempty.  All definitions are translated from the repository sources:
`models/entities.py`, `graph/crud.py`, `ingestion/pipeline.py` and
`scripts/llm_batch_cleanup.py`.
-/

namespace LiCunXu

/-- The ambiguous-title blacklist `AMBIGUOUS_TITLES` from `graph/crud.py`:
generic temple names, titles, kinship terms and offices that must not
participate in cross-person merge matching.  (The Python literal is a set;
the duplicate entry "太子" is kept here harmlessly, membership is what
matters.) -/
def AMBIGUOUS_TITLES : List String :=
  ["太宗", "太祖", "世宗", "高祖", "中宗", "明宗", "穆宗", "庄宗",
   "文宗", "武宗", "宣宗", "哀帝", "废帝", "少帝", "末帝",
   "皇帝", "天子", "新天子", "大宋天子", "大周皇帝", "皇太子", "太子",
   "皇太弟", "晋王", "秦王", "齐王", "赵王", "魏王", "楚王", "吴王",
   "蜀王", "梁王", "燕王", "汉王", "周王", "宋王", "鲁王",
   "皇后", "太后", "太妃", "贵妃", "淑妃", "贤妃",
   "太子", "世子", "长子", "次子", "三子", "老大", "老二", "老三", "老四",
   "先王", "先帝",
   "宰相", "枢密使", "节度使", "刺史", "侍中",
   "唐主", "梁主", "晋主", "汉主", "周主", "蜀主", "契丹主",
   "辽主", "吴主",
   "伶人", "优伶", "伶伦", "住持和尚", "法师"]

/-- Truthiness of an optional integer, as Python's `if x:` sees it:
present and nonzero. -/
def truthyInt : Option Int → Bool
  | none => false
  | some y => y != 0

/-- Truthiness of an optional string: present and nonempty. -/
def truthyStr : Option String → Bool
  | none => false
  | some s => s != ""

/-- Model of `models.entities.Person`.  The same record models both a candidate
person coming from extraction and a stored `Person` node: the stored
properties are exactly the pydantic fields (`neo4j_properties` writes the
optional year/cause keys only when present, which the `Option` fields
capture). -/
structure Person where
  uid : String
  original_name : String
  aliases : List String := []
  role : String := "其他"
  loyalty : List String := []
  birth_year : Option Int := none
  death_year : Option Int := none
  death_cause : Option String := none
  description : String := ""
deriving DecidableEq, Repr

/-- Model of `Person.all_names`: the person's name set, `{original_name} ∪ aliases`
with the empty string discarded. -/
def Person.all_names (p : Person) : Finset String :=
  (insert p.original_name p.aliases.toFinset).erase ""

/-- Model of `models.entities.Dynasty`. -/
structure Dynasty where
  uid : String
  name : String
  founder : Option String := none
  capital : Option String := none
  start_year : Option Int := none
  end_year : Option Int := none
  description : String := ""
deriving DecidableEq, Repr

/-- Model of `models.entities.Event`. -/
structure Event where
  uid : String
  name : String
  event_type : String := "其他"
  year : Option Int := none
  location : Option String := none
  participants : List String := []
  outcome : Option String := none
  description : String := ""
deriving DecidableEq, Repr

/-- Model of `models.entities.Place`. -/
structure Place where
  uid : String
  name : String
  modern_name : Option String := none
  description : String := ""
deriving DecidableEq, Repr

/-- Model of `models.entities.Relation` (candidate relation, endpoints by name). -/
structure Relation where
  source : String
  target : String
  relation_type : String
  year : Option Int := none
  description : String := ""
deriving DecidableEq, Repr

/-- A persisted edge, identified by (source uid, target uid, type).  Its
optional properties are the ones the repository ever writes on an edge:
`description`/`year` (from `create_relation_by_name`) and `role` (from
`link_event_participant`). -/
structure Edge where
  source : String
  target : String
  rel_type : String
  year : Option Int := none
  description : Option String := none
  role : Option String := none
deriving DecidableEq, Repr

/-- The graph store: typed node lists plus an edge list.  New nodes and
edges are appended, so list order is insertion order; `LIMIT 1` queries
take the first match in this order. -/
structure GraphState where
  persons : List Person := []
  dynasties : List Dynasty := []
  events : List Event := []
  places : List Place := []
  edges : List Edge := []
deriving DecidableEq, Repr

/-- The empty graph store. -/
def emptyGraph : GraphState := {}

/-- Model of `GraphCRUD._filter_ambiguous_names`: drop empty strings, blacklisted
generic titles, and single-character names; keep the rest. -/
def filter_ambiguous_names (names : Finset String) : Finset String :=
  names.filter (fun n => n ≠ "" ∧ n ∉ AMBIGUOUS_TITLES ∧ n.length ≠ 1)

/-- Model of `GraphCRUD.find_person_by_any_name`: returns the whole matched person
record (the dict the Cypher query returns carries every field we model).
First an exact `original_name` match over the filtered name set, then an
alias-overlap match; each query is `LIMIT 1`, i.e. first match in store
order.  The name set actually used for matching (`specific_names` in the
source) is split out as `specificNames`. -/
def specificNames (names : Finset String) (use_filter : Bool) : Finset String :=
  if use_filter then filter_ambiguous_names names
  else names.filter (fun n => n ≠ "")

/-- Body of `find_person_by_any_name`, see the comment on `specificNames`. -/
def find_person_by_any_name (names : Finset String) (st : GraphState)
    (use_filter : Bool := true) : Option Person :=
  if names = ∅ then none
  else if specificNames names use_filter = ∅ then none
  else
    match st.persons.find?
        (fun p => p.original_name ∈ specificNames names use_filter) with
    | some p => some p
    | none =>
      st.persons.find?
        (fun p => p.aliases.any (fun a => a ∈ specificNames names use_filter))

/-- The effect of `MERGE (p:Person {uid:$uid}) SET p += $props` on a node
that already carries the candidate's uid: every always-present property is
overwritten and each optional property is overwritten only when the
candidate carries it (`neo4j_properties` omits absent keys). -/
def applyPersonProps (cand n : Person) : Person :=
  { uid := n.uid
    original_name := cand.original_name
    aliases := cand.aliases
    role := cand.role
    loyalty := cand.loyalty
    birth_year := match cand.birth_year with
                  | some b => some b
                  | none => n.birth_year
    death_year := match cand.death_year with
                  | some d => some d
                  | none => n.death_year
    death_cause := match cand.death_cause with
                   | some c => some c
                   | none => n.death_cause
    description := cand.description }

/-- Model of `GraphCRUD.upsert_person` (also the node-creation step inside
`merge_person`): `MERGE` by uid — update every node that carries the uid,
or append a new node holding exactly the candidate's properties. -/
def upsert_person (cand : Person) (st : GraphState) : GraphState :=
  if st.persons.any (fun n => n.uid == cand.uid) then
    let ps := st.persons.map
      (fun n => if n.uid == cand.uid then applyPersonProps cand n else n)
    { st with persons := ps }
  else
    { st with persons := st.persons ++ [cand] }

/-- Model of Python's `list(dict.fromkeys(l))`: de-duplicate keeping the first occurrence of
each element, preserving order. -/
def dedupKeepFirst (l : List String) : List String :=
  l.foldl (fun acc x => if x ∈ acc then acc else acc ++ [x]) []

/-- The proposed alias set computed inside `merge_person`:
`(existing.aliases ∪ {existing.original_name} ∪ candidate.all_names)`
minus the existing canonical name, minus the empty string. -/
def proposedAliases (person existing : Person) : Finset String :=
  ((insert existing.original_name existing.aliases.toFinset ∪
      person.all_names).erase existing.original_name).erase ""

/-- The per-node update performed by the merge branch of `merge_person`:
the update query rewrites `aliases`, `loyalty` and `description`
unconditionally, and appends a `SET` clause for each scalar field whose
condition (computed in Python from the matched record `existing`, with
Python truthiness) holds; a field without a `SET` clause keeps the node's
stored value. -/
def mergeUpdate (person existing : Person) (n : Person) : Person :=
  { n with
    aliases := (proposedAliases person existing).sort (· ≤ ·)
    loyalty := dedupKeepFirst (existing.loyalty ++ person.loyalty)
    description :=
      if existing.description.length < person.description.length then
        person.description
      else existing.description
    birth_year :=
      if truthyInt person.birth_year ∧ ¬ truthyInt existing.birth_year
      then person.birth_year else n.birth_year
    death_year :=
      if truthyInt person.death_year ∧ ¬ truthyInt existing.death_year
      then person.death_year else n.death_year
    death_cause :=
      if truthyStr person.death_cause ∧ ¬ truthyStr existing.death_cause
      then person.death_cause else n.death_cause
    role :=
      if person.role ≠ "" ∧ person.role ≠ "其他" ∧
         (existing.role = "其他" ∨ existing.role = "")
      then person.role else n.role }

/-- Model of `GraphCRUD.merge_person`: smart person merging with the pollution
guard.  Returns the uid finally used together with the updated store.  In
the merge branch the update query is `MATCH (p:Person {uid}) SET ...`, so
it rewrites every node carrying the matched uid via `mergeUpdate`. -/
def merge_person (person : Person) (st : GraphState) : String × GraphState :=
  match find_person_by_any_name person.all_names st with
  | some existing =>
      if (proposedAliases person existing).card > 25 then
        (person.uid, upsert_person person st)
      else
        let ps := st.persons.map
          (fun n => if n.uid == existing.uid then mergeUpdate person existing n
                    else n)
        (existing.uid, { st with persons := ps })
  | none => (person.uid, upsert_person person st)

/-- Model of `GraphCRUD.resolve_node_uid`: person (by `original_name` or alias) →
dynasty (by name) → event (by name) → place (by name); first match wins;
the empty name resolves to nothing. -/
def resolve_node_uid (name : String) (st : GraphState) : Option String :=
  if name = "" then none
  else
    match st.persons.find?
        (fun p => p.original_name == name || p.aliases.contains name) with
    | some p => some p.uid
    | none =>
      match st.dynasties.find? (fun d => d.name == name) with
      | some d => some d.uid
      | none =>
        match st.events.find? (fun e => e.name == name) with
        | some e => some e.uid
        | none =>
          match st.places.find? (fun pl => pl.name == name) with
          | some pl => some pl.uid
          | none => none

/-- Model of `GraphCRUD.resolve_person_uid`: person lookup only, unfiltered. -/
def resolve_person_uid (name : String) (st : GraphState) : Option String :=
  if name = "" then none
  else
    match st.persons.find?
        (fun p => p.original_name == name || p.aliases.contains name) with
    | some p => some p.uid
    | none => none

/-- Relation-type sanitization in `create_relation_by_name`: uppercase,
spaces and hyphens to underscores, every remaining non-alphanumeric
character to an underscore, empty result falls back to `RELATED_TO`. -/
def sanitizeRelType (s : String) : String :=
  let t := (s.toUpper.replace " " "_").replace "-" "_"
  let t := String.mk (t.data.map (fun c => if c.isAlphanum || c == '_' then c else '_'))
  if t = "" then "RELATED_TO" else t

/-- Model of `MERGE (a)-[r:T]->(b) SET r += props` for a relation edge: update the
`description`/`year` properties of every edge with the same
(source, target, type) triple, or append a fresh edge.  `edgeHit` is the
triple-equality test shared by both edge merges. -/
def edgeHit (su tu t : String) (e : Edge) : Bool :=
  e.source == su && e.target == tu && e.rel_type == t

/-- See the comment on `edgeHit`. -/
def upsertRelationEdge (su tu t : String) (desc : String) (yr : Option Int)
    (st : GraphState) : GraphState :=
  if st.edges.any (edgeHit su tu t) then
    { st with edges := st.edges.map (fun e =>
        if edgeHit su tu t e then
          { e with description := some desc
                   year := match yr with | some y => some y | none => e.year }
        else e) }
  else
    { st with edges := st.edges ++
        [{ source := su, target := tu, rel_type := t,
           year := yr, description := some desc }] }

/-- Model of `GraphCRUD.create_relation_by_name`: resolve both endpoint names to
uids; a missing (or falsy, i.e. empty) uid on either side returns `false`
with the store untouched; otherwise merge the typed edge idempotently and
return `true`. -/
def create_relation_by_name (r : Relation) (st : GraphState) : Bool × GraphState :=
  let source_uid := resolve_node_uid r.source st
  let target_uid := resolve_node_uid r.target st
  match source_uid with
  | none => (false, st)
  | some su =>
    if su = "" then (false, st)
    else
      match target_uid with
      | none => (false, st)
      | some tu =>
        if tu = "" then (false, st)
        else
          let t := sanitizeRelType r.relation_type
          (true, upsertRelationEdge su tu t r.description r.year st)

/-- Model of `MERGE (p)-[r:PARTICIPATED_IN]->(e) SET r.role = $role`: update the
`role` property of every matching participation edge, or append one. -/
def upsertParticipationEdge (pu eu role : String) (st : GraphState) : GraphState :=
  if st.edges.any (edgeHit pu eu "PARTICIPATED_IN") then
    { st with edges := st.edges.map (fun e =>
        if edgeHit pu eu "PARTICIPATED_IN" e then { e with role := some role }
        else e) }
  else
    { st with edges := st.edges ++
        [{ source := pu, target := eu, rel_type := "PARTICIPATED_IN",
           role := some role }] }

/-- Model of `GraphCRUD.link_event_participant`: resolve the participant name; on a
falsy result fall back to treating the string as a uid, checked against
stored persons; if both fail return the store unchanged.  The final write
is a `MATCH` on the event uid and the person uid followed by an edge
merge, so it happens only when both nodes exist.  `uidFallback` is the
try-the-string-as-a-uid step. -/
def uidFallback (person_name : String) (st : GraphState) : Option String :=
  if st.persons.any (fun p => p.uid == person_name) then some person_name
  else none

/-- See the comment on `uidFallback`. -/
def link_event_participant (event_uid person_name : String)
    (role : String := "参与者") (st : GraphState) : GraphState :=
  match
    (match resolve_person_uid person_name st with
     | some u => if u = "" then uidFallback person_name st else some u
     | none => uidFallback person_name st) with
  | none => st
  | some pu =>
    if st.events.any (fun e => e.uid == event_uid) &&
       st.persons.any (fun p => p.uid == pu) then
      upsertParticipationEdge pu event_uid role st
    else st

/-- Model of `GraphCRUD.upsert_dynasty`: `MERGE` by uid with `SET d += props`;
`neo4j_properties` omits a falsy `founder`/`capital` and an absent
`start_year`/`end_year`. -/
def upsert_dynasty (cand : Dynasty) (st : GraphState) : GraphState :=
  let apply := fun (n : Dynasty) =>
    { uid := n.uid
      name := cand.name
      founder := if truthyStr cand.founder then cand.founder else n.founder
      capital := if truthyStr cand.capital then cand.capital else n.capital
      start_year := match cand.start_year with | some y => some y | none => n.start_year
      end_year := match cand.end_year with | some y => some y | none => n.end_year
      description := cand.description }
  if st.dynasties.any (fun n => n.uid == cand.uid) then
    let ds := st.dynasties.map (fun n => if n.uid == cand.uid then apply n else n)
    { st with dynasties := ds }
  else
    { st with dynasties := st.dynasties ++ [cand] }

/-- Model of `GraphCRUD.upsert_event`: `MERGE` by uid; `neo4j_properties` omits an
absent `year` and falsy `location`/`outcome`. -/
def upsert_event (cand : Event) (st : GraphState) : GraphState :=
  let apply := fun (n : Event) =>
    { uid := n.uid
      name := cand.name
      event_type := cand.event_type
      year := match cand.year with | some y => some y | none => n.year
      location := if truthyStr cand.location then cand.location else n.location
      participants := cand.participants
      outcome := if truthyStr cand.outcome then cand.outcome else n.outcome
      description := cand.description }
  if st.events.any (fun n => n.uid == cand.uid) then
    let es := st.events.map (fun n => if n.uid == cand.uid then apply n else n)
    { st with events := es }
  else
    { st with events := st.events ++ [cand] }

/-- Model of `GraphCRUD.upsert_place`: `MERGE` by uid; `neo4j_properties` omits a
falsy `modern_name`. -/
def upsert_place (cand : Place) (st : GraphState) : GraphState :=
  let apply := fun (n : Place) =>
    { uid := n.uid
      name := cand.name
      modern_name := if truthyStr cand.modern_name then cand.modern_name else n.modern_name
      description := cand.description }
  if st.places.any (fun n => n.uid == cand.uid) then
    let ps := st.places.map (fun n => if n.uid == cand.uid then apply n else n)
    { st with places := ps }
  else
    { st with places := st.places ++ [cand] }

/-- Model of `models.entities.ExtractionResult`: the candidate set one text unit
yields (the `source_text`/`source_chapter` bookkeeping fields play no role
in graph writes and are omitted). -/
structure ExtractionResult where
  persons : List Person := []
  dynasties : List Dynasty := []
  events : List Event := []
  places : List Place := []
  relations : List Relation := []
deriving DecidableEq, Repr

/-- Model of `IngestionPipeline._write_result_to_neo4j`: dynasties, then places,
then persons through `merge_person`, then events with their participant
links, then relations by name.  Per-item exceptions are logged and
swallowed in the source; the pure model has no failing writes. -/
def write_result_to_neo4j (res : ExtractionResult) (st : GraphState) : GraphState :=
  let st := res.dynasties.foldl (fun s d => upsert_dynasty d s) st
  let st := res.places.foldl (fun s pl => upsert_place pl s) st
  let st := res.persons.foldl (fun s p => (merge_person p s).2) st
  let st := res.events.foldl (fun s e =>
    let s := upsert_event e s
    e.participants.foldl (fun s2 pn => link_event_participant e.uid pn "参与者" s2) s) st
  let st := res.relations.foldl (fun s r => (create_relation_by_name r s).2) st
  st

/-- Model of `ingestion.text_processor.TextChunk` (the fields the pipeline reads). -/
structure TextChunk where
  chunk_id : String
  chapter : String := ""
  content : String := ""
deriving DecidableEq, Repr

/-- Orchestrator state threaded through `IngestionPipeline.run`: the graph
store, the processed-chunk-id set, and a count of extraction calls made. -/
structure PipeState where
  graph : GraphState
  processed : Finset String
  extract_calls : Nat := 0
deriving DecidableEq

/-- One iteration of the per-chunk loop in `IngestionPipeline.run`: call
the extractor (modelled by the `oracle`); on success write the result to
the graph; either way record the chunk id as processed. -/
def processChunk (oracle : TextChunk → Option ExtractionResult)
    (st : PipeState) (c : TextChunk) : PipeState :=
  match oracle c with
  | some res =>
      { graph := write_result_to_neo4j res st.graph
        processed := insert c.chunk_id st.processed
        extract_calls := st.extract_calls + 1 }
  | none =>
      { graph := st.graph
        processed := insert c.chunk_id st.processed
        extract_calls := st.extract_calls + 1 }

/-- The chunk loop of `IngestionPipeline.run`. -/
def runChunks (oracle : TextChunk → Option ExtractionResult) :
    PipeState → List TextChunk → PipeState :=
  List.foldl (processChunk oracle)

/-- Model of `IngestionPipeline.run`: optionally clear the store, optionally load
the persisted progress set, filter out already-processed chunks (only when
resuming with a nonempty progress set, as the source's truthiness check
does), apply the `start_from` offset and `max_chunks` cap, then run the
loop.  `loaded` is what `_load_progress` read from the checkpoint file;
the returned `processed` component is what `_save_progress` persists at
the end. -/
def pipeline_run (oracle : TextChunk → Option ExtractionResult)
    (chunks : List TextChunk) (loaded : Finset String) (g0 : GraphState)
    (clear_db : Bool := false) (resume : Bool := true)
    (start_from : Nat := 0) (max_chunks : Option Nat := none) : PipeState :=
  let g := if clear_db then emptyGraph else g0
  let processed0 : Finset String :=
    if clear_db then ∅ else if resume then loaded else ∅
  let pending :=
    if resume && processed0 ≠ ∅ then
      chunks.filter (fun c => c.chunk_id ∉ processed0)
    else chunks
  let pending := if start_from > 0 then pending.drop start_from else pending
  let pending := match max_chunks with
                 | some m => pending.take m
                 | none => pending
  runChunks oracle { graph := g, processed := processed0 } pending

/-- Keyword list `MEMORIAL_KEYWORDS` from `scripts/llm_batch_cleanup.py`: textual
signals that a post-death event is commemorative and its participation
edge must survive the temporal repair. -/
def MEMORIAL_KEYWORDS : List String :=
  ["追封", "追赠", "追谥", "祭", "葬", "陵", "安葬", "遗命", "遗诏", "庙号", "谥号"]

/-- Whether the character list `p` occurs at the head of `l`. -/
def charsStart : List Char → List Char → Bool
  | [], _ => true
  | _ :: _, [] => false
  | a :: as, b :: bs => a == b && charsStart as bs

/-- Whether the character list `p` occurs contiguously anywhere in `l`. -/
def charsInside (p : List Char) : List Char → Bool
  | [] => charsStart p []
  | b :: bs => charsStart p (b :: bs) || charsInside p bs

/-- Python's `pat in s` substring test. -/
def strContains (s pat : String) : Bool := charsInside pat.data s.data

/-- Whether any memorial keyword occurs in `s` (the source tests
`any(kw in desc for kw in MEMORIAL_KEYWORDS)`). -/
def hasMemorialKeyword (s : String) : Bool :=
  MEMORIAL_KEYWORDS.any (fun kw => strContains s kw)

/-- The death-year map built at the start of
`run_phase2_event_relations`: a dict keyed by uid over all persons whose
`death_year` is non-null, so a later store entry with the same uid
overwrites an earlier one. -/
def lastDeathYear : List Person → String → Option Int
  | [], _ => none
  | p :: ps, u =>
      match lastDeathYear ps u with
      | some d => some d
      | none => if p.uid == u && p.death_year.isSome then p.death_year else none

/-- Whether step 1 of `run_phase2_event_relations` deletes the edge `ed`
from store `st`: it is a `PARTICIPATED_IN` edge whose source uid is in the
death-year map, and some event node carrying the target uid has a year
strictly beyond the death year and no memorial keyword in its description
followed by its name. -/
def postDeathRemovable (st : GraphState) (ed : Edge) : Bool :=
  ed.rel_type == "PARTICIPATED_IN" &&
  (match lastDeathYear st.persons ed.source with
   | none => false
   | some dy =>
     st.events.any (fun ev =>
       ev.uid == ed.target &&
       (match ev.year with
        | some y => decide (dy < y)
        | none => false) &&
       ! hasMemorialKeyword (ev.description ++ ev.name)))

/-- Step 1 of `run_phase2_event_relations` (the temporal relation
repair's removal pass): delete every post-death, non-memorial
participation edge; nodes are untouched. -/
def run_phase2_remove_post_death (st : GraphState) : GraphState :=
  { st with edges := st.edges.filter (fun ed => ! postDeathRemovable st ed) }

/-! ## Helper lemmas -/

lemma empty_not_mem_all_names (p : Person) : "" ∉ p.all_names := by
  simp [Person.all_names]

lemma orig_mem_all_names (p : Person) (h : p.original_name ≠ "") :
    p.original_name ∈ p.all_names := by
  simp [Person.all_names, Finset.mem_erase, h]

lemma alias_mem_all_names (p : Person) (a : String) (ha : a ∈ p.aliases)
    (hne : a ≠ "") : a ∈ p.all_names := by
  simp [Person.all_names, Finset.mem_erase, hne, ha]

lemma specificNames_empty (uf : Bool) : specificNames ∅ uf = ∅ := by
  cases uf <;> simp [specificNames, filter_ambiguous_names]

lemma mem_specificNames_ne_empty {names : Finset String} {uf : Bool} {x : String}
    (h : x ∈ specificNames names uf) : x ≠ "" := by
  cases uf <;>
    simp only [specificNames, filter_ambiguous_names, Finset.mem_filter,
      if_true, if_false, Bool.false_eq_true, ite_true, ite_false] at h <;>
    tauto

lemma mem_specificNames_mem {names : Finset String} {uf : Bool} {x : String}
    (h : x ∈ specificNames names uf) : x ∈ names := by
  cases uf <;>
    simp [specificNames, filter_ambiguous_names, Finset.mem_filter] at h <;>
    tauto

lemma mem_filter_ambiguous_not_title {names : Finset String} {x : String}
    (h : x ∈ filter_ambiguous_names names) : x ∉ AMBIGUOUS_TITLES := by
  simp only [filter_ambiguous_names, Finset.mem_filter] at h
  tauto

lemma find_person_mem {names : Finset String} {uf : Bool} {st : GraphState}
    {q : Person} (h : find_person_by_any_name names st uf = some q) :
    q ∈ st.persons := by
  rw [find_person_by_any_name] at h
  by_cases h0 : names = ∅
  · rw [if_pos h0] at h; simp at h
  rw [if_neg h0] at h
  by_cases h1 : specificNames names uf = ∅
  · rw [if_pos h1] at h; simp at h
  rw [if_neg h1] at h
  cases hfe : st.persons.find?
      (fun p => p.original_name ∈ specificNames names uf) with
  | some p =>
      rw [hfe] at h
      cases h
      exact List.mem_of_find?_eq_some hfe
  | none =>
      rw [hfe] at h
      exact List.mem_of_find?_eq_some h

lemma find_person_exact {names : Finset String} {uf : Bool} {st : GraphState}
    {p : Person} (hp : p ∈ st.persons)
    (hmem : p.original_name ∈ specificNames names uf) :
    ∃ q, find_person_by_any_name names st uf = some q ∧ q ∈ st.persons ∧
      q.original_name ∈ specificNames names uf := by
  have hne : names ≠ ∅ := by
    intro h0
    rw [h0, specificNames_empty] at hmem
    simp at hmem
  have hs : specificNames names uf ≠ ∅ := by
    intro h1; rw [h1] at hmem; simp at hmem
  have hex : (st.persons.find?
      (fun q => q.original_name ∈ specificNames names uf)).isSome := by
    rw [List.find?_isSome]
    exact ⟨p, hp, by simpa using hmem⟩
  obtain ⟨q, hq⟩ := Option.isSome_iff_exists.mp hex
  refine ⟨q, ?_, List.mem_of_find?_eq_some hq, ?_⟩
  · rw [find_person_by_any_name, if_neg hne, if_neg hs, hq]
  · simpa using List.find?_some hq

lemma find_person_none {names : Finset String} {uf : Bool} {st : GraphState}
    (h : ∀ p ∈ st.persons, p.original_name ∉ specificNames names uf ∧
         ∀ a ∈ p.aliases, a ∉ specificNames names uf) :
    find_person_by_any_name names st uf = none := by
  rw [find_person_by_any_name]
  by_cases h0 : names = ∅
  · rw [if_pos h0]
  rw [if_neg h0]
  by_cases h1 : specificNames names uf = ∅
  · rw [if_pos h1]
  rw [if_neg h1]
  have hfe : st.persons.find?
      (fun p => p.original_name ∈ specificNames names uf) = none := by
    rw [List.find?_eq_none]
    intro p hp
    simpa using (h p hp).1
  rw [hfe, List.find?_eq_none]
  intro p hp
  simp only [List.any_eq_true, decide_eq_true_eq, not_exists, not_and]
  intro a ha
  exact (h p hp).2 a ha

lemma find_person_nil {names : Finset String} {uf : Bool} {st : GraphState}
    (h : st.persons = []) : find_person_by_any_name names st uf = none :=
  find_person_none (by simp [h])

lemma upsertParticipation_has_edge (pu eu role : String) (st : GraphState) :
    ∃ ed ∈ (upsertParticipationEdge pu eu role st).edges,
      ed.source = pu ∧ ed.target = eu ∧ ed.rel_type = "PARTICIPATED_IN" := by
  rw [upsertParticipationEdge]
  by_cases h : st.edges.any (edgeHit pu eu "PARTICIPATED_IN")
  · rw [if_pos h]
    obtain ⟨e, he, hhit⟩ := List.any_eq_true.mp h
    have hprops : e.source = pu ∧ e.target = eu ∧
        e.rel_type = "PARTICIPATED_IN" := by
      simp only [edgeHit, Bool.and_eq_true, beq_iff_eq] at hhit
      exact ⟨hhit.1.1, hhit.1.2, hhit.2⟩
    refine ⟨{ e with role := some role }, ?_, hprops.1, hprops.2.1, hprops.2.2⟩
    show { e with role := some role } ∈ st.edges.map
      (fun e => if edgeHit pu eu "PARTICIPATED_IN" e
                then { e with role := some role } else e)
    rw [List.mem_map]
    exact ⟨e, he, by simp [hhit]⟩
  · rw [if_neg h]
    refine ⟨{ source := pu, target := eu, rel_type := "PARTICIPATED_IN",
              role := some role }, ?_, rfl, rfl, rfl⟩
    exact List.mem_append_right _ (List.mem_singleton.mpr rfl)

/-! ## Claims -/

/-- C9: the ambiguous-title blacklist and the single-character exclusion
apply only to person identity resolution (merge matching); the
relation-endpoint and participant resolvers match `original_name` and
`aliases` with no filtering, so a blacklisted title or single-character
name that is stored on some node resolves to such a node instead of
failing.  The first two conjuncts witness the contrast: the same string is
excluded from merge matching. -/
theorem C9_no_filter_in_resolution (st : GraphState) (s : String) (p : Person)
    (hs : s ∈ AMBIGUOUS_TITLES ∨ s.length = 1)
    (hp : p ∈ st.persons)
    (hmatch : p.original_name = s ∨ s ∈ p.aliases) :
    filter_ambiguous_names {s} = ∅ ∧
    find_person_by_any_name {s} st = none ∧
    ∃ q ∈ st.persons, (q.original_name = s ∨ s ∈ q.aliases) ∧
      resolve_node_uid s st = some q.uid ∧
      resolve_person_uid s st = some q.uid := by
  have hsne : s ≠ "" := by
    rcases hs with h | h
    · intro he; subst he; revert h; decide
    · intro he; subst he; exact absurd h (by decide)
  have hfil : filter_ambiguous_names {s} = ∅ := by
    ext x
    simp only [filter_ambiguous_names, Finset.mem_filter, Finset.mem_singleton,
      Finset.not_mem_empty, iff_false, not_and]
    rintro rfl _ hnt hlen
    rcases hs with h | h
    · exact absurd h hnt
    · exact absurd h hlen
  have hfind : find_person_by_any_name {s} st = none := by
    rw [find_person_by_any_name,
      if_neg (Finset.singleton_ne_empty s)]
    have hsp : specificNames {s} true = ∅ := by
      simpa [specificNames] using hfil
    rw [if_pos hsp]
  have hex : (st.persons.find?
      (fun q => q.original_name == s || q.aliases.contains s)).isSome := by
    rw [List.find?_isSome]
    refine ⟨p, hp, ?_⟩
    rcases hmatch with h | h <;> simp [h]
  obtain ⟨q, hq⟩ := Option.isSome_iff_exists.mp hex
  have hqmem := List.mem_of_find?_eq_some hq
  have hqprop : q.original_name = s ∨ s ∈ q.aliases := by
    have := List.find?_some hq
    simpa using this
  refine ⟨hfil, hfind, q, hqmem, hqprop, ?_, ?_⟩
  · rw [resolve_node_uid, if_neg hsne, hq]
  · rw [resolve_person_uid, if_neg hsne, hq]

/-- C5: relation endpoint resolution tries node kinds in the fixed order
person (by `original_name` or alias) → dynasty (by name) → event (by
name) → place (by name), with the first match winning; and whenever
either endpoint of a candidate relation resolves to no uid,
`create_relation_by_name` returns `false` with the store unchanged (no
edge, no implicitly created node).  The empty name, which the resolver
rejects up front, is excluded from the order statements. -/
theorem C5_resolution_order_and_failure :
    (∀ (st : GraphState) (name : String) (p : Person),
       name ≠ "" → p ∈ st.persons →
       (p.original_name = name ∨ name ∈ p.aliases) →
       ∃ q ∈ st.persons, (q.original_name = name ∨ name ∈ q.aliases) ∧
         resolve_node_uid name st = some q.uid) ∧
    (∀ (st : GraphState) (name : String) (d : Dynasty),
       name ≠ "" →
       (∀ p ∈ st.persons, p.original_name ≠ name ∧ name ∉ p.aliases) →
       d ∈ st.dynasties → d.name = name →
       ∃ d' ∈ st.dynasties, d'.name = name ∧
         resolve_node_uid name st = some d'.uid) ∧
    (∀ (st : GraphState) (name : String) (ev : Event),
       name ≠ "" →
       (∀ p ∈ st.persons, p.original_name ≠ name ∧ name ∉ p.aliases) →
       (∀ d ∈ st.dynasties, d.name ≠ name) →
       ev ∈ st.events → ev.name = name →
       ∃ ev' ∈ st.events, ev'.name = name ∧
         resolve_node_uid name st = some ev'.uid) ∧
    (∀ (st : GraphState) (name : String) (pl : Place),
       name ≠ "" →
       (∀ p ∈ st.persons, p.original_name ≠ name ∧ name ∉ p.aliases) →
       (∀ d ∈ st.dynasties, d.name ≠ name) →
       (∀ ev ∈ st.events, ev.name ≠ name) →
       pl ∈ st.places → pl.name = name →
       ∃ pl' ∈ st.places, pl'.name = name ∧
         resolve_node_uid name st = some pl'.uid) ∧
    (∀ (st : GraphState) (r : Relation),
       resolve_node_uid r.source st = none ∨
         resolve_node_uid r.target st = none →
       create_relation_by_name r st = (false, st)) := by
  have hpnone : ∀ (st : GraphState) (name : String),
      (∀ p ∈ st.persons, p.original_name ≠ name ∧ name ∉ p.aliases) →
      st.persons.find?
        (fun p => p.original_name == name || p.aliases.contains name) = none := by
    intro st name h
    rw [List.find?_eq_none]
    intro p hp
    simp only [Bool.or_eq_true, beq_iff_eq, not_or]
    constructor
    · simp [(h p hp).1]
    · simpa using (h p hp).2
  refine ⟨?_, ?_, ?_, ?_, ?_⟩
  · intro st name p hne hp hmatch
    have hex : (st.persons.find?
        (fun q => q.original_name == name || q.aliases.contains name)).isSome := by
      rw [List.find?_isSome]
      refine ⟨p, hp, ?_⟩
      rcases hmatch with h | h <;> simp [h]
    obtain ⟨q, hq⟩ := Option.isSome_iff_exists.mp hex
    refine ⟨q, List.mem_of_find?_eq_some hq, ?_, ?_⟩
    · simpa using List.find?_some hq
    · rw [resolve_node_uid, if_neg hne, hq]
  · intro st name d hne hnop hd hdn
    have hex : (st.dynasties.find? (fun x => x.name == name)).isSome := by
      rw [List.find?_isSome]
      exact ⟨d, hd, by simp [hdn]⟩
    obtain ⟨d', hd'⟩ := Option.isSome_iff_exists.mp hex
    refine ⟨d', List.mem_of_find?_eq_some hd', ?_, ?_⟩
    · simpa using List.find?_some hd'
    · rw [resolve_node_uid, if_neg hne, hpnone st name hnop, hd']
  · intro st name ev hne hnop hnod hev hevn
    have hdn : st.dynasties.find? (fun x => x.name == name) = none := by
      rw [List.find?_eq_none]
      intro d hd
      simp [hnod d hd]
    have hex : (st.events.find? (fun x => x.name == name)).isSome := by
      rw [List.find?_isSome]
      exact ⟨ev, hev, by simp [hevn]⟩
    obtain ⟨ev', hev'⟩ := Option.isSome_iff_exists.mp hex
    refine ⟨ev', List.mem_of_find?_eq_some hev', ?_, ?_⟩
    · simpa using List.find?_some hev'
    · rw [resolve_node_uid, if_neg hne, hpnone st name hnop, hdn, hev']
  · intro st name pl hne hnop hnod hnoe hpl hpln
    have hdn : st.dynasties.find? (fun x => x.name == name) = none := by
      rw [List.find?_eq_none]
      intro d hd
      simp [hnod d hd]
    have hen : st.events.find? (fun x => x.name == name) = none := by
      rw [List.find?_eq_none]
      intro e he
      simp [hnoe e he]
    have hex : (st.places.find? (fun x => x.name == name)).isSome := by
      rw [List.find?_isSome]
      exact ⟨pl, hpl, by simp [hpln]⟩
    obtain ⟨pl', hpl'⟩ := Option.isSome_iff_exists.mp hex
    refine ⟨pl', List.mem_of_find?_eq_some hpl', ?_, ?_⟩
    · simpa using List.find?_some hpl'
    · rw [resolve_node_uid, if_neg hne, hpnone st name hnop, hdn, hen, hpl']
  · intro st r hfail
    rcases hfail with h | h
    · simp [create_relation_by_name, h]
    · cases hsrc : resolve_node_uid r.source st with
      | none => simp [create_relation_by_name, hsrc]
      | some su =>
          by_cases hsu : su = ""
          · simp [create_relation_by_name, hsrc, hsu]
          · simp [create_relation_by_name, hsrc, hsu, h]

/-- C10: `link_event_participant` has a uid fallback — when the
participant string matches no person's `original_name` or alias but a
`Person` node whose uid equals the string exists, a `PARTICIPATED_IN`
edge to that node is still created (given that the target event node
exists, as the final `MATCH` requires); when neither the name lookup nor
the uid lookup succeeds, the call leaves the store untouched. -/
theorem C10_uid_fallback (st : GraphState) (event_uid person_name role : String)
    (hres : resolve_person_uid person_name st = none) :
    ((∃ p ∈ st.persons, p.uid = person_name) →
     (∃ e ∈ st.events, e.uid = event_uid) →
     ∃ ed ∈ (link_event_participant event_uid person_name role st).edges,
       ed.source = person_name ∧ ed.target = event_uid ∧
       ed.rel_type = "PARTICIPATED_IN") ∧
    ((∀ p ∈ st.persons, p.uid ≠ person_name) →
     link_event_participant event_uid person_name role st = st) := by
  constructor
  · rintro ⟨p, hp, hpu⟩ ⟨e, he, heu⟩
    have hany : st.persons.any (fun q => q.uid == person_name) = true := by
      rw [List.any_eq_true]
      exact ⟨p, hp, by simp [hpu]⟩
    have hfb : uidFallback person_name st = some person_name := by
      rw [uidFallback, if_pos hany]
    have heany : st.events.any (fun x => x.uid == event_uid) = true := by
      rw [List.any_eq_true]
      exact ⟨e, he, by simp [heu]⟩
    simp only [link_event_participant, hres, hfb, heany, hany,
      Bool.and_self, if_true]
    exact upsertParticipation_has_edge person_name event_uid role st
  · intro hno
    have hany : st.persons.any (fun q => q.uid == person_name) = false := by
      rw [List.any_eq_false]
      intro p hp
      simp [hno p hp]
    have hfb : uidFallback person_name st = none := by
      rw [uidFallback, if_neg (by simp [hany])]
    simp only [link_event_participant, hres, hfb]

lemma lastDeathYear_none {l : List Person} {u : String}
    (h : ∀ q ∈ l, q.uid ≠ u) : lastDeathYear l u = none := by
  induction l with
  | nil => rfl
  | cons a l ih =>
      have ha : (a.uid == u) = false := by
        simp [h a (List.mem_cons_self a l)]
      simp [lastDeathYear, ih (fun q hq => h q (List.mem_cons_of_mem a hq)), ha]

lemma lastDeathYear_eq {l : List Person} {p : Person}
    (hp : p ∈ l) (huni : ∀ q ∈ l, q.uid = p.uid → q = p)
    {d : Int} (hd : p.death_year = some d) :
    lastDeathYear l p.uid = some d := by
  induction l with
  | nil => cases hp
  | cons a l ih =>
      by_cases hpl : p ∈ l
      · have htail := ih hpl (fun q hq hq2 => huni q (List.mem_cons_of_mem a hq) hq2)
        simp [lastDeathYear, htail]
      · have hap : a = p := by
          rcases List.mem_cons.mp hp with h | h
          · exact h.symm
          · exact absurd h hpl
        subst hap
        have hnone : lastDeathYear l a.uid = none :=
          lastDeathYear_none (fun q hq he =>
            hpl ((huni q (List.mem_cons_of_mem a hq) he) ▸ hq))
        simp [lastDeathYear, hnone, hd]

lemma any_eq_of_uid_gate {l : List Event} {ev : Event}
    (hev : ev ∈ l) (huni : ∀ x ∈ l, x.uid = ev.uid → x = ev)
    (q : Event → Bool) (hgate : ∀ x, q x = true → x.uid = ev.uid) :
    l.any q = q ev := by
  cases hf : q ev
  · rw [List.any_eq_false]
    intro x hx hqx
    have hxev := huni x hx (hgate x hqx)
    rw [hxev, hf] at hqx
    cases hqx
  · rw [List.any_eq_true]
    exact ⟨ev, hev, hf⟩

lemma mem_phase2_edges {st : GraphState} {ed : Edge} :
    ed ∈ (run_phase2_remove_post_death st).edges ↔
      ed ∈ st.edges ∧ postDeathRemovable st ed = false := by
  show ed ∈ st.edges.filter (fun x => ! postDeathRemovable st x) ↔ _
  rw [List.mem_filter]
  simp

/-- C6: for every person with a known death year, the removal step of the
temporal repair pass deletes each of their outgoing `PARTICIPATED_IN`
edges whose event year strictly exceeds the death year, unless the
event's description concatenated with its name contains a memorial
keyword, in which case the edge is retained; edges whose event year does
not exceed the death year are always retained.  (Store uids are assumed
unique per label, as the schema constraints require.) -/
theorem C6_temporal_repair (st : GraphState) (p : Person) (ev : Event)
    (ed : Edge)
    (huniP : ∀ q₁ ∈ st.persons, ∀ q₂ ∈ st.persons, q₁.uid = q₂.uid → q₁ = q₂)
    (huniE : ∀ e₁ ∈ st.events, ∀ e₂ ∈ st.events, e₁.uid = e₂.uid → e₁ = e₂)
    (hp : p ∈ st.persons) (hev : ev ∈ st.events)
    (hed : ed ∈ st.edges) (hsrc : ed.source = p.uid) (htgt : ed.target = ev.uid)
    (htyp : ed.rel_type = "PARTICIPATED_IN")
    {dy y : Int} (hdy : p.death_year = some dy) (hy : ev.year = some y) :
    (dy < y → hasMemorialKeyword (ev.description ++ ev.name) = false →
       ed ∉ (run_phase2_remove_post_death st).edges) ∧
    (hasMemorialKeyword (ev.description ++ ev.name) = true →
       ed ∈ (run_phase2_remove_post_death st).edges) ∧
    (y ≤ dy → ed ∈ (run_phase2_remove_post_death st).edges) := by
  have hld : lastDeathYear st.persons p.uid = some dy :=
    lastDeathYear_eq hp (fun q hq hq2 => huniP q hq p hp hq2) hdy
  have hremove : postDeathRemovable st ed =
      (decide (dy < y) && ! hasMemorialKeyword (ev.description ++ ev.name)) := by
    have hany := any_eq_of_uid_gate (l := st.events) hev
      (fun x hx hx2 => huniE x hx ev hev hx2)
      (fun x => (x.uid == ev.uid &&
          match x.year with
          | some y => decide (dy < y)
          | none => false) &&
        ! hasMemorialKeyword (x.description ++ x.name))
      (fun x hqx => by
        simp only [Bool.and_eq_true, beq_iff_eq] at hqx
        exact hqx.1.1)
    simp only [postDeathRemovable, hsrc, htgt, htyp, hld]
    rw [hany]
    simp [hy]
  refine ⟨?_, ?_, ?_⟩
  · intro hlt hnok hin
    have hfalse := (mem_phase2_edges.mp hin).2
    rw [hremove, hnok] at hfalse
    simp [hlt] at hfalse
  · intro hkw
    refine mem_phase2_edges.mpr ⟨hed, ?_⟩
    rw [hremove, hkw]
    simp
  · intro hle
    refine mem_phase2_edges.mpr ⟨hed, ?_⟩
    rw [hremove]
    simp [not_lt.mpr hle]

lemma processChunk_processed (oracle : TextChunk → Option ExtractionResult)
    (st : PipeState) (c : TextChunk) :
    (processChunk oracle st c).processed = insert c.chunk_id st.processed := by
  cases h : oracle c <;> simp [processChunk, h]

lemma runChunks_processed (oracle : TextChunk → Option ExtractionResult)
    (st : PipeState) (cs : List TextChunk) :
    (runChunks oracle st cs).processed =
      st.processed ∪ (cs.map TextChunk.chunk_id).toFinset := by
  induction cs generalizing st with
  | nil => simp [runChunks]
  | cons c cs ih =>
      have hstep : runChunks oracle st (c :: cs) =
          runChunks oracle (processChunk oracle st c) cs := rfl
      rw [hstep, ih (processChunk oracle st c), processChunk_processed]
      ext x
      simp only [Finset.mem_union, Finset.mem_insert, List.mem_toFinset,
        List.map_cons, List.mem_cons]
      tauto

/-- C7: resume idempotence — running the orchestrator with resume enabled
(and without clearing) over a chunk list whose ids are all already in the
persisted processed set makes zero extraction calls, performs zero graph
writes, and saves a processed set equal to the loaded one. -/
theorem C7_resume_idempotence (oracle : TextChunk → Option ExtractionResult)
    (chunks : List TextChunk) (loaded : Finset String) (g0 : GraphState)
    (h : ∀ c ∈ chunks, c.chunk_id ∈ loaded) :
    pipeline_run oracle chunks loaded g0 false true 0 none =
      { graph := g0, processed := loaded, extract_calls := 0 } := by
  by_cases hl : loaded = ∅
  · have hc : chunks = [] := by
      rw [List.eq_nil_iff_forall_not_mem]
      intro c hc
      have := h c hc
      rw [hl] at this
      simp at this
    subst hc
    subst hl
    simp [pipeline_run, runChunks]
  · have hfil : chunks.filter (fun c => ! decide (c.chunk_id ∈ loaded)) = [] := by
      rw [List.filter_eq_nil_iff]
      intro c hc
      simp [h c hc]
    simp [pipeline_run, runChunks, hl, hfil]

/-- C8: extraction failure is non-fatal — for a unit whose extraction call
returns no result, the orchestrator writes nothing to the graph, still
counts the call, records the unit id as processed, and continues with the
remaining units; the loop runs to input exhaustion, recording every
pending unit id. -/
theorem C8_extraction_failure_nonfatal
    (oracle : TextChunk → Option ExtractionResult)
    (st : PipeState) (c : TextChunk) (rest : List TextChunk)
    (hfail : oracle c = none) :
    (processChunk oracle st c).graph = st.graph ∧
    (processChunk oracle st c).processed = insert c.chunk_id st.processed ∧
    (processChunk oracle st c).extract_calls = st.extract_calls + 1 ∧
    runChunks oracle st (c :: rest) =
      runChunks oracle (processChunk oracle st c) rest ∧
    (runChunks oracle st (c :: rest)).processed =
      st.processed ∪ (List.map TextChunk.chunk_id (c :: rest)).toFinset := by
  refine ⟨?_, ?_, ?_, rfl, runChunks_processed oracle st (c :: rest)⟩
  · simp [processChunk, hfail]
  · simp [processChunk, hfail]
  · simp [processChunk, hfail]

lemma upsert_person_preserves {cand : Person} {st : GraphState} {n : Person}
    (hn : n ∈ st.persons) (hfresh : cand.uid ≠ n.uid) :
    n ∈ (upsert_person cand st).persons := by
  rw [upsert_person]
  by_cases h : st.persons.any (fun q => q.uid == cand.uid)
  · rw [if_pos h]
    show n ∈ st.persons.map
      (fun q => if q.uid == cand.uid then applyPersonProps cand q else q)
    refine List.mem_map.mpr ⟨n, hn, ?_⟩
    rw [if_neg (by simp [Ne.symm hfresh])]
  · rw [if_neg h]
    exact List.mem_append_left _ hn

/-- C4 (amended): scalar fill-in is monotonic for every node whose uid the
candidate does not carry — a `merge_person` call never changes a
populated (Python-truthy) `birth_year`, `death_year`, `death_cause`, or
populated non-default `role` of such a node, whether the call merges into
it by name or writes elsewhere.  (Store uids are assumed unique, as the
schema constraint requires.)  When the candidate carries the node's own
uid and takes the creation path, the upsert overwrites the node
unconditionally — see the counterexample. -/
theorem C4_monotonic_scalars (cand : Person) (st : GraphState) (n : Person)
    (huni : ∀ q₁ ∈ st.persons, ∀ q₂ ∈ st.persons, q₁.uid = q₂.uid → q₁ = q₂)
    (hn : n ∈ st.persons)
    (hfresh : cand.uid ≠ n.uid) :
    ∃ n' ∈ (merge_person cand st).2.persons,
      n'.uid = n.uid ∧
      (truthyInt n.birth_year = true → n'.birth_year = n.birth_year) ∧
      (truthyInt n.death_year = true → n'.death_year = n.death_year) ∧
      (truthyStr n.death_cause = true → n'.death_cause = n.death_cause) ∧
      (n.role ≠ "" → n.role ≠ "其他" → n'.role = n.role) := by
  cases hfind : find_person_by_any_name cand.all_names st with
  | none =>
      have hred : (merge_person cand st).2 = upsert_person cand st := by
        simp only [merge_person, hfind]
      rw [hred]
      exact ⟨n, upsert_person_preserves hn hfresh, rfl, fun _ => rfl,
        fun _ => rfl, fun _ => rfl, fun _ _ => rfl⟩
  | some existing =>
      by_cases hcard : (proposedAliases cand existing).card > 25
      · have hred : (merge_person cand st).2 = upsert_person cand st := by
          simp only [merge_person, hfind, if_pos hcard]
        rw [hred]
        exact ⟨n, upsert_person_preserves hn hfresh, rfl, fun _ => rfl,
          fun _ => rfl, fun _ => rfl, fun _ _ => rfl⟩
      · have hred : (merge_person cand st).2.persons = st.persons.map
            (fun m => if m.uid == existing.uid then mergeUpdate cand existing m
                      else m) := by
          simp only [merge_person, hfind, if_neg hcard]
        rw [hred]
        by_cases hne : n.uid = existing.uid
        · have hexm : existing ∈ st.persons := find_person_mem hfind
          have heq : existing = n := huni existing hexm n hn hne.symm
          subst heq
          refine ⟨mergeUpdate cand existing existing,
            List.mem_map.mpr ⟨existing, hn, by simp⟩, rfl, ?_, ?_, ?_, ?_⟩
          · intro ht
            show (if truthyInt cand.birth_year ∧ ¬ truthyInt existing.birth_year
                  then cand.birth_year else existing.birth_year) =
              existing.birth_year
            rw [if_neg (by simp [ht])]
          · intro ht
            show (if truthyInt cand.death_year ∧ ¬ truthyInt existing.death_year
                  then cand.death_year else existing.death_year) =
              existing.death_year
            rw [if_neg (by simp [ht])]
          · intro ht
            show (if truthyStr cand.death_cause ∧ ¬ truthyStr existing.death_cause
                  then cand.death_cause else existing.death_cause) =
              existing.death_cause
            rw [if_neg (by simp [ht])]
          · intro h1 h2
            show (if cand.role ≠ "" ∧ cand.role ≠ "其他" ∧
                     (existing.role = "其他" ∨ existing.role = "")
                  then cand.role else existing.role) = existing.role
            rw [if_neg (by simp [h1, h2])]
        · refine ⟨n, List.mem_map.mpr ⟨n, hn, ?_⟩, rfl, fun _ => rfl,
            fun _ => rfl, fun _ => rfl, fun _ _ => rfl⟩
          rw [if_neg (by simp [hne])]

/-- C2 (amended): idempotent identity holds once the canonical name
survives the ambiguous-title / single-character filter — for a candidate
whose unfiltered name set is exactly some stored node's `canonicalName`,
where that name is neither blacklisted nor a single character, the node
is the unique carrier of that canonical name and the store obeys the
25-alias ceiling, `merge_person` returns that node's uid.  Second part:
an exact canonical-name match always takes priority — whenever any
stored node's `original_name` lies in the filtered name set, the lookup
returns such a node, so alias overlap is consulted only when no exact
match exists. -/
theorem C2_idempotent_identity :
    (∀ (st : GraphState) (cand n : Person),
       n ∈ st.persons →
       cand.all_names = {n.original_name} →
       n.original_name ∉ AMBIGUOUS_TITLES →
       n.original_name.length ≠ 1 →
       (∀ m ∈ st.persons, m.original_name = n.original_name → m = n) →
       n.aliases.length ≤ 25 →
       (merge_person cand st).1 = n.uid) ∧
    (∀ (names : Finset String) (st : GraphState) (p : Person),
       p ∈ st.persons → p.original_name ∈ filter_ambiguous_names names →
       ∃ q, find_person_by_any_name names st = some q ∧ q ∈ st.persons ∧
         q.original_name ∈ filter_ambiguous_names names) := by
  constructor
  · intro st cand n hn hnames hnt hlen huni halias
    have hone : n.original_name ≠ "" := by
      intro he
      have hmem : n.original_name ∈ cand.all_names := by
        rw [hnames]; simp
      rw [he] at hmem
      exact empty_not_mem_all_names cand hmem
    have hmem : n.original_name ∈ specificNames cand.all_names true := by
      rw [hnames]
      simp [specificNames, filter_ambiguous_names, hone, hnt, hlen]
    obtain ⟨q, hq, hqmem, hqspec⟩ := find_person_exact hn hmem
    have hqorig : q.original_name = n.original_name := by
      have := mem_specificNames_mem hqspec
      rw [hnames] at this
      simpa using this
    have hqn : q = n := huni q hqmem hqorig
    subst hqn
    have hsub : proposedAliases cand q ⊆ q.aliases.toFinset := by
      intro x hx
      simp only [proposedAliases, Finset.mem_erase, Finset.mem_union,
        Finset.mem_insert, hnames, Finset.mem_singleton] at hx
      rcases hx with ⟨hx0, hx1, hx2⟩
      rcases hx2 with (h | h) | h
      · exact absurd h hx1
      · exact h
      · exact absurd h hx1
    have hcard : ¬ (proposedAliases cand q).card > 25 := by
      have h1 := Finset.card_le_card hsub
      have h2 := List.toFinset_card_le q.aliases
      omega
    simp only [merge_person, hq, if_neg hcard]
  · intro names st p hp hmem
    obtain ⟨q, h1, h2, h3⟩ := find_person_exact hp
      (show p.original_name ∈ specificNames names true by
        simpa [specificNames] using hmem)
    exact ⟨q, h1, h2, by simpa [specificNames] using h3⟩

/-- C1 (amended): union-or-abort with the proposed alias set computed as
the union of the matched node's aliases plus its canonical name with the
candidate's full unfiltered name set, minus the canonical name and the
empty string.  If the proposed set has more than 25 names, no merge
happens and the candidate is written through an upsert on its own uid,
returning the candidate's uid — provided the candidate's uid matches no
stored node, the store becomes the old store plus one brand-new node and
the matched node is untouched (with a uid collision the upsert overwrites
in place — see the counterexample).  Otherwise the merge is applied in
full: the updated node's stored alias set equals exactly the proposed
union, which contains both pre-merge alias sets minus the canonical name
and the empty string. -/
theorem C1_pollution_guard (person : Person) (st : GraphState)
    (existing : Person)
    (hfind : find_person_by_any_name person.all_names st = some existing) :
    ((proposedAliases person existing).card > 25 →
       (merge_person person st).1 = person.uid ∧
       ((∀ n ∈ st.persons, n.uid ≠ person.uid) →
         (merge_person person st).2.persons = st.persons ++ [person])) ∧
    ((proposedAliases person existing).card ≤ 25 →
       (merge_person person st).1 = existing.uid ∧
       ∃ n' ∈ (merge_person person st).2.persons,
         n'.uid = existing.uid ∧
         n'.aliases.toFinset = proposedAliases person existing ∧
         (existing.aliases.toFinset.erase existing.original_name).erase "" ⊆
           proposedAliases person existing ∧
         person.all_names.erase existing.original_name ⊆
           proposedAliases person existing) := by
  constructor
  · intro hcard
    constructor
    · simp only [merge_person, hfind, if_pos hcard]
    · intro hfresh
      have hany : st.persons.any (fun q => q.uid == person.uid) = false := by
        rw [List.any_eq_false]
        intro q hq
        simp [hfresh q hq]
      simp only [merge_person, hfind, if_pos hcard, upsert_person, hany,
        Bool.false_eq_true, if_false]
  · intro hcard
    have hc : ¬ (proposedAliases person existing).card > 25 := by omega
    constructor
    · simp only [merge_person, hfind, if_neg hc]
    · have hred : (merge_person person st).2.persons = st.persons.map
          (fun m => if m.uid == existing.uid then mergeUpdate person existing m
                    else m) := by
        simp only [merge_person, hfind, if_neg hc]
      rw [hred]
      have hexm : existing ∈ st.persons := find_person_mem hfind
      refine ⟨mergeUpdate person existing existing,
        List.mem_map.mpr ⟨existing, hexm, by simp⟩, rfl, ?_, ?_, ?_⟩
      · show ((proposedAliases person existing).sort (· ≤ ·)).toFinset = _
        exact Finset.sort_toFinset _ _
      · intro x hx
        simp only [Finset.mem_erase] at hx
        obtain ⟨hx0, hx1, hx2⟩ := hx
        simp only [proposedAliases, Finset.mem_erase, Finset.mem_union,
          Finset.mem_insert]
        exact ⟨hx0, hx1, Or.inl (Or.inr hx2)⟩
      · intro x hx
        rw [Finset.mem_erase] at hx
        have hx0 : x ≠ "" := fun he => empty_not_mem_all_names person (he ▸ hx.2)
        simp only [proposedAliases, Finset.mem_erase, Finset.mem_union,
          Finset.mem_insert]
        exact ⟨hx0, hx.1, Or.inr hx.2⟩

/-- C3 (amended): two candidates whose name sets intersect exactly in one
blacklisted ambiguous title, carrying distinct uids, resolved one after
the other against an empty store, produce two distinct canonical nodes —
the blacklisted name never participates in matching and neither candidate
is merged into the other.  (With a shared uid — which the source's
pinyin-derived uid scheme produces for two persons known by the same
single title — the second upsert overwrites the first node in place; see
the counterexample.) -/
theorem C3_distinct_nodes (p q : Person) (t : String)
    (hshare : p.all_names ∩ q.all_names = {t})
    (ht : t ∈ AMBIGUOUS_TITLES)
    (huid : p.uid ≠ q.uid) :
    (merge_person p emptyGraph).1 = p.uid ∧
    (merge_person q (merge_person p emptyGraph).2).1 = q.uid ∧
    (merge_person q (merge_person p emptyGraph).2).2.persons = [p, q] := by
  have hfind1 : find_person_by_any_name p.all_names emptyGraph = none :=
    find_person_nil rfl
  have hst1 : (merge_person p emptyGraph).2 =
      ({ persons := [p] } : GraphState) := by
    simp only [merge_person, hfind1, upsert_person]
    rw [if_neg (by simp [emptyGraph])]
    rfl
  have h1 : (merge_person p emptyGraph).1 = p.uid := by
    simp only [merge_person, hfind1]
  have hnoshare : ∀ x, x ∈ specificNames q.all_names true →
      x ∈ p.all_names → False := by
    intro x hxs hxp
    have hxq : x ∈ q.all_names := mem_specificNames_mem hxs
    have hxt : x ∈ ({t} : Finset String) := by
      rw [← hshare]
      exact Finset.mem_inter.mpr ⟨hxp, hxq⟩
    rw [Finset.mem_singleton] at hxt
    subst hxt
    exact mem_filter_ambiguous_not_title
      (by simpa [specificNames] using hxs) ht
  have hfind2 : find_person_by_any_name q.all_names
      ({ persons := [p] } : GraphState) = none := by
    apply find_person_none
    intro r hr
    have hrp : r = p := by simpa using hr
    subst hrp
    constructor
    · intro hmem
      exact hnoshare _ hmem
        (orig_mem_all_names r (mem_specificNames_ne_empty hmem))
    · intro a ha hmem
      exact hnoshare _ hmem
        (alias_mem_all_names r a ha (mem_specificNames_ne_empty hmem))
  refine ⟨h1, ?_, ?_⟩
  · rw [hst1]
    simp only [merge_person, hfind2]
  · rw [hst1]
    simp only [merge_person, hfind2, upsert_person]
    rw [if_neg (by simpa using huid)]
    rfl

/-! ## Concrete inputs for counterexamples and witnesses -/

/-- Stored node for the C1 counterexample: 24 two-character aliases. -/
def c1x_exist : Person :=
  { uid := "u", original_name := "zhangsan",
    aliases := ["aa", "ab", "ac", "ad", "ae", "af", "ag", "ah", "ai", "aj",
                "ak", "al", "am", "an", "ao", "ap", "aq", "ar", "as", "at",
                "au", "av", "aw", "ax"] }

/-- Candidate for the C1 counterexample: shares the canonical name and its
uid with the stored node and brings 25 fresh aliases, so the proposed
union has 49 names. -/
def c1x_cand : Person :=
  { uid := "u", original_name := "zhangsan",
    aliases := ["ba", "bb", "bc", "bd", "be", "bf", "bg", "bh", "bi", "bj",
                "bk", "bl", "bm", "bn", "bo", "bp", "bq", "br", "bs", "bt",
                "bu", "bv", "bw", "bx", "by"] }

/-- Store for the C1 counterexample. -/
def c1x_st : GraphState := { persons := [c1x_exist] }

/-- Witness inputs for C1: a small merge staying within the ceiling. -/
def c1w_node : Person := { uid := "p1", original_name := "zhangsan" }

/-- Witness candidate for C1. -/
def c1w_cand : Person :=
  { uid := "p2", original_name := "zhangsan", aliases := ["lisi"] }

/-- Witness store for C1. -/
def c1w_st : GraphState := { persons := [c1w_node] }

/-- Stored node for the C2 counterexample: its canonical name is the
blacklisted temple name "太宗". -/
def c2x_node : Person := { uid := "p1", original_name := "太宗" }

/-- Candidate for the C2 counterexample: unfiltered name set exactly
matches the stored canonical name. -/
def c2x_cand : Person := { uid := "p2", original_name := "太宗" }

/-- Store for the C2 counterexample. -/
def c2x_st : GraphState := { persons := [c2x_node] }

/-- Witness inputs for C2. -/
def c2w_node : Person := { uid := "p1", original_name := "zhangsan" }

/-- Witness candidate for C2. -/
def c2w_cand : Person := { uid := "p2", original_name := "zhangsan" }

/-- Witness store for C2. -/
def c2w_st : GraphState := { persons := [c2w_node] }

/-- First candidate of the C3 counterexample: known only by the
blacklisted title "晋王"; the source's uid scheme derives the uid from the
most common name, so both candidates carry `person_jin_wang`. -/
def c3x_p : Person :=
  { uid := "person_jin_wang", original_name := "晋王", description := "甲" }

/-- Second candidate of the C3 counterexample. -/
def c3x_q : Person :=
  { uid := "person_jin_wang", original_name := "晋王", description := "乙" }

/-- Witness inputs for C3: distinct uids, shared blacklisted alias. -/
def c3w_p : Person :=
  { uid := "w1", original_name := "zhangsan", aliases := ["晋王"] }

/-- Second witness candidate for C3. -/
def c3w_q : Person :=
  { uid := "w2", original_name := "lisi", aliases := ["晋王"] }

/-- First candidate of the C4 counterexample: creates a node with a
populated birth year. -/
def c4x_A : Person :=
  { uid := "u", original_name := "zhangsan", birth_year := some 880 }

/-- Second candidate of the C4 counterexample: no name overlap, same uid,
different birth year. -/
def c4x_B : Person :=
  { uid := "u", original_name := "lisi", birth_year := some 900 }

/-- Witness node for C4: every scalar field populated. -/
def c4w_n : Person :=
  { uid := "p1", original_name := "zhangsan", role := "皇帝",
    birth_year := some 880, death_year := some 912,
    death_cause := some "病死" }

/-- Witness candidate for C4: merges into the witness node by name and
offers different scalar values, none of which may stick. -/
def c4w_cand : Person :=
  { uid := "p2", original_name := "zhangsan", role := "将领",
    birth_year := some 800, death_year := some 900,
    death_cause := some "战死" }

/-- Witness store for C4. -/
def c4w_st : GraphState := { persons := [c4w_n] }

/-- Witness person for C5 (the spec's Li Keyong / Li Siyuan scenario). -/
def c5w_p : Person := { uid := "person_li_keyong", original_name := "李克用" }

/-- Witness store for C5. -/
def c5w_st : GraphState := { persons := [c5w_p] }

/-- Witness relation for C5: the target has never been resolved. -/
def c5w_r : Relation :=
  { source := "李克用", target := "李嗣源", relation_type := "ADOPTED_SON" }

/-- Witness person for C6: died in 912. -/
def c6w_p : Person :=
  { uid := "pu", original_name := "zhangsan", death_year := some 912 }

/-- Witness event for C6: year 920, no memorial keyword. -/
def c6w_ev : Event :=
  { uid := "eu", name := "battle", year := some 920,
    description := "no keyword here" }

/-- Witness event for C6 with a memorial keyword in its description. -/
def c6w_evm : Event :=
  { uid := "eu", name := "battle", year := some 920,
    description := "遗诏即位" }

/-- Witness participation edge for C6. -/
def c6w_ed : Edge :=
  { source := "pu", target := "eu", rel_type := "PARTICIPATED_IN" }

/-- Witness store for C6, non-memorial variant. -/
def c6w_st : GraphState :=
  { persons := [c6w_p], events := [c6w_ev], edges := [c6w_ed] }

/-- Witness store for C6, memorial variant. -/
def c6w_stm : GraphState :=
  { persons := [c6w_p], events := [c6w_evm], edges := [c6w_ed] }

/-- Witness chunk for C7. -/
def c7w_chunk : TextChunk := { chunk_id := "c1" }

/-- Witness extraction oracle for C7. -/
def c7w_oracle : TextChunk → Option ExtractionResult := fun _ => none

/-- Witness chunk for C8. -/
def c8w_chunk : TextChunk := { chunk_id := "c8" }

/-- Witness extraction oracle for C8: the call fails. -/
def c8w_oracle : TextChunk → Option ExtractionResult := fun _ => none

/-- Witness pipeline state for C8. -/
def c8w_st : PipeState := { graph := emptyGraph, processed := ∅ }

/-- Witness person for C9: canonical name is a blacklisted title. -/
def c9w_p : Person := { uid := "p1", original_name := "太宗" }

/-- Witness store for C9. -/
def c9w_st : GraphState := { persons := [c9w_p] }

/-- Witness person for C10: stored under a pinyin uid, whose name the
participant string does not match. -/
def c10w_p : Person := { uid := "person_li", original_name := "李嗣源" }

/-- Witness event for C10. -/
def c10w_ev : Event := { uid := "ev1", name := "battle" }

/-- Witness store for C10. -/
def c10w_st : GraphState := { persons := [c10w_p], events := [c10w_ev] }

/-! ## Counterexamples and witnesses -/

/-- C1 counterexample: the candidate's uid collides with the matched
node's uid (the source derives both from the same name), the proposed
alias set has 49 > 25 names, so the guard trips — but the upsert then
rewrites the existing node in place: the store still holds exactly one
node, now carrying the candidate's properties, so the existing node was
not left unchanged and no brand-new node was created. -/
theorem C1_counterexample :
    find_person_by_any_name c1x_cand.all_names c1x_st = some c1x_exist ∧
    (proposedAliases c1x_cand c1x_exist).card > 25 ∧
    (merge_person c1x_cand c1x_st).1 = c1x_cand.uid ∧
    (merge_person c1x_cand c1x_st).2.persons = [c1x_cand] ∧
    c1x_cand ≠ c1x_exist := by decide

/-- Witness for C1 at a concrete in-ceiling merge. -/
theorem C1_pollution_guard_witness :
    find_person_by_any_name c1w_cand.all_names c1w_st = some c1w_node ∧
    (proposedAliases c1w_cand c1w_node).card ≤ 25 ∧
    (merge_person c1w_cand c1w_st).1 = c1w_node.uid :=
  ⟨by decide, by decide,
   ((C1_pollution_guard c1w_cand c1w_st c1w_node (by decide)).2 (by decide)).1⟩

/-- C2 counterexample: a candidate whose unfiltered name set exactly
matches the stored canonical name "太宗" — a blacklisted title — is not
resolved to that node: `merge_person` returns the candidate's own uid and
creates a second node. -/
theorem C2_counterexample :
    c2x_cand.all_names = {c2x_node.original_name} ∧
    c2x_node ∈ c2x_st.persons ∧
    (merge_person c2x_cand c2x_st).1 = c2x_cand.uid ∧
    (merge_person c2x_cand c2x_st).1 ≠ c2x_node.uid ∧
    (merge_person c2x_cand c2x_st).2.persons.length = 2 := by decide

/-- Witness for C2 at a concrete unblacklisted name. -/
theorem C2_idempotent_identity_witness :
    c2w_cand.all_names = {c2w_node.original_name} ∧
    (merge_person c2w_cand c2w_st).1 = c2w_node.uid :=
  ⟨by decide,
   C2_idempotent_identity.1 c2w_st c2w_cand c2w_node (by decide) (by decide)
     (by decide) (by decide) (by decide) (by decide)⟩

/-- C3 counterexample: two distinct candidates, each known only by the
blacklisted title "晋王", both carry the name-derived uid
`person_jin_wang`; resolving both leaves a single node in the store, not
two distinct canonical nodes. -/
theorem C3_counterexample :
    c3x_p.all_names ∩ c3x_q.all_names = {"晋王"} ∧
    "晋王" ∈ AMBIGUOUS_TITLES ∧
    c3x_p ≠ c3x_q ∧
    (merge_person c3x_q (merge_person c3x_p emptyGraph).2).2.persons.length
      = 1 := by decide

/-- Witness for C3 at concrete distinct-uid candidates. -/
theorem C3_distinct_nodes_witness :
    c3w_p.all_names ∩ c3w_q.all_names = {"晋王"} ∧
    (merge_person c3w_q (merge_person c3w_p emptyGraph).2).2.persons
      = [c3w_p, c3w_q] :=
  ⟨by decide,
   (C3_distinct_nodes c3w_p c3w_q "晋王" (by decide) (by decide)
     (by decide)).2.2⟩

/-- C4 counterexample: a sequence of two `merge_person` calls in which the
second candidate shares no name with the stored node but carries its uid;
the stored populated `birth_year` 880 is overwritten to 900 by the
creation-path upsert. -/
theorem C4_counterexample :
    (merge_person c4x_A emptyGraph).2.persons.map Person.birth_year
      = [some 880] ∧
    truthyInt (some 880) = true ∧
    (merge_person c4x_B (merge_person c4x_A emptyGraph).2).2.persons.map
      Person.birth_year = [some 900] := by decide

/-- Witness for C4 at a concrete populated node and a merging candidate. -/
theorem C4_monotonic_scalars_witness :
    truthyInt c4w_n.birth_year = true ∧
    ∃ n' ∈ (merge_person c4w_cand c4w_st).2.persons,
      n'.uid = c4w_n.uid ∧
      (truthyInt c4w_n.birth_year = true → n'.birth_year = c4w_n.birth_year) ∧
      (truthyInt c4w_n.death_year = true → n'.death_year = c4w_n.death_year) ∧
      (truthyStr c4w_n.death_cause = true →
        n'.death_cause = c4w_n.death_cause) ∧
      (c4w_n.role ≠ "" → c4w_n.role ≠ "其他" → n'.role = c4w_n.role) :=
  ⟨by decide,
   C4_monotonic_scalars c4w_cand c4w_st c4w_n (by decide) (by decide)
     (by decide)⟩

/-- Witness for C5: person lookup wins, and the spec's scenario — an
`ADOPTED_SON` relation whose target has never been resolved fails cleanly
with the store untouched. -/
theorem C5_resolution_order_and_failure_witness :
    (∃ q ∈ c5w_st.persons,
       (q.original_name = "李克用" ∨ "李克用" ∈ q.aliases) ∧
       resolve_node_uid "李克用" c5w_st = some q.uid) ∧
    create_relation_by_name c5w_r c5w_st = (false, c5w_st) :=
  ⟨C5_resolution_order_and_failure.1 c5w_st "李克用" c5w_p (by decide)
     (by decide) (by decide),
   C5_resolution_order_and_failure.2.2.2.2 c5w_st c5w_r
     (Or.inr (by decide))⟩

/-- Witness for C6: the spec's scenario — death year 912, event year 920;
without a memorial keyword the participation edge is removed, with one it
is retained. -/
theorem C6_temporal_repair_witness :
    c6w_ed ∉ (run_phase2_remove_post_death c6w_st).edges ∧
    c6w_ed ∈ (run_phase2_remove_post_death c6w_stm).edges :=
  ⟨(C6_temporal_repair c6w_st c6w_p c6w_ev c6w_ed (by decide) (by decide)
      (by decide) (by decide) (by decide) (by decide) (by decide) (by decide)
      rfl rfl).1 (by decide) (by decide),
   (C6_temporal_repair c6w_stm c6w_p c6w_evm c6w_ed (by decide) (by decide)
      (by decide) (by decide) (by decide) (by decide) (by decide) (by decide)
      rfl rfl).2.1 (by decide)⟩

/-- Witness for C7 at a concrete fully-processed chunk list. -/
theorem C7_resume_idempotence_witness :
    pipeline_run c7w_oracle [c7w_chunk] {"c1"} emptyGraph false true 0 none =
      { graph := emptyGraph, processed := {"c1"}, extract_calls := 0 } :=
  C7_resume_idempotence c7w_oracle [c7w_chunk] {"c1"} emptyGraph (by decide)

/-- Witness for C8 at a concrete failing unit. -/
theorem C8_extraction_failure_nonfatal_witness :
    (processChunk c8w_oracle c8w_st c8w_chunk).graph = c8w_st.graph ∧
    (processChunk c8w_oracle c8w_st c8w_chunk).processed =
      insert c8w_chunk.chunk_id c8w_st.processed ∧
    (processChunk c8w_oracle c8w_st c8w_chunk).extract_calls =
      c8w_st.extract_calls + 1 ∧
    runChunks c8w_oracle c8w_st [c8w_chunk] =
      runChunks c8w_oracle (processChunk c8w_oracle c8w_st c8w_chunk) [] ∧
    (runChunks c8w_oracle c8w_st [c8w_chunk]).processed =
      c8w_st.processed ∪ (List.map TextChunk.chunk_id [c8w_chunk]).toFinset :=
  C8_extraction_failure_nonfatal c8w_oracle c8w_st c8w_chunk [] rfl

/-- Witness for C9 at the blacklisted title "太宗" stored as a canonical
name. -/
theorem C9_no_filter_in_resolution_witness :
    ("太宗" ∈ AMBIGUOUS_TITLES ∨ ("太宗" : String).length = 1) ∧
    (filter_ambiguous_names {"太宗"} = ∅ ∧
     find_person_by_any_name {"太宗"} c9w_st = none ∧
     ∃ q ∈ c9w_st.persons, (q.original_name = "太宗" ∨ "太宗" ∈ q.aliases) ∧
       resolve_node_uid "太宗" c9w_st = some q.uid ∧
       resolve_person_uid "太宗" c9w_st = some q.uid) :=
  ⟨by decide,
   C9_no_filter_in_resolution c9w_st "太宗" c9w_p (by decide) (by decide)
     (by decide)⟩

/-- Witness for C10 at a participant string that is a stored uid. -/
theorem C10_uid_fallback_witness :
    resolve_person_uid "person_li" c10w_st = none ∧
    ∃ ed ∈ (link_event_participant "ev1" "person_li" "参与者" c10w_st).edges,
      ed.source = "person_li" ∧ ed.target = "ev1" ∧
      ed.rel_type = "PARTICIPATED_IN" :=
  ⟨by decide,
   (C10_uid_fallback c10w_st "ev1" "person_li" "参与者" (by decide)).1
     ⟨c10w_p, by decide, by decide⟩ ⟨c10w_ev, by decide, by decide⟩⟩

end LiCunXu
